import Mathlib

/-!
# SSNFSd log routing: a shallow embedding of `log.h` and of the parts of `main.cpp` it needs

The program keeps three process-wide variables (`Log::Categories`, `Log::Outputs`,
`Log::isInit`).  They are the fields of `LogState`; every function of the source that
touches them becomes a function on `LogState`.  What the program does to the outside world
(Qt message handlers, SQL statements, spdlog writes) is recorded, in order, in
`LogState.trace`.  The configuration database and the spdlog factory functions are outside
the program: their answers are the fields of `ConfEnv`.
-/

namespace SSNFS

/-! ## Qt value types -/

/-- A `QUrl` as the program observes it: `scheme()` and `path()`. -/
structure QUrl where
  scheme : String
  path : String
deriving DecidableEq, Repr

/-- Whether `pat` starts the character list `hay`. -/
def startsWithChars : List Char → List Char → Bool
  | _, [] => true
  | [], _ :: _ => false
  | h :: hs, p :: ps => if h = p then startsWithChars hs ps else false

/-- Whether `pat` occurs in `hay` as a contiguous run of characters. -/
def containsChars : List Char → List Char → Bool
  | [], pat => startsWithChars [] pat
  | h :: hs, pat => startsWithChars (h :: hs) pat || containsChars hs pat

/-- `QString::contains(const char *)`, case sensitive (the default of Qt). -/
def QString.contains (s pat : String) : Bool :=
  containsChars s.data pat.data

/-! ## spdlog -/

/-- The spdlog factory call that made a logger; it stands for the `shared_ptr` handle. -/
inductive Logger where
  | basic_logger_mt (name file : String)
  | syslog_logger (name ident : String)
  | stdout_logger_mt (name : String)
  | stderr_logger_mt (name : String)
deriving DecidableEq, Repr

/-- Severity of one spdlog write. -/
inductive Level where
  | error
  | warn
  | info
deriving DecidableEq, Repr

/-- Exceptions that travel through the program. -/
inductive Exn where
  | invalid_argument (what : String)
  | spdlog_ex
deriving DecidableEq, Repr

/-! ## `LogOutput` and `LogCategory` (log.h 31-89) -/

/-- The enum `LogOutput::OutputTypes`. -/
inductive OutputTypes where
  | OutputFile
  | OutputSyslog
  | OutputStdOut
  | OutputStdErr
deriving DecidableEq, Repr

/-- The class `LogOutput`; `QDateTime` is a number. -/
structure LogOutput where
  name : String
  type : OutputTypes
  path : QUrl
  updated : Nat
  updatedBy : String
  logger : Logger
deriving DecidableEq, Repr

/-- The class `LogCategory`. -/
structure LogCategory where
  name : String
  description : String
  errorOutputs : List LogOutput
  last10Errors : List String
  warningOutputs : List LogOutput
  infoOutputs : List LogOutput
deriving DecidableEq, Repr

/-- The default constructor `LogCategory()`. -/
def LogCategory.empty : LogCategory :=
  { name := "", description := "", errorOutputs := [], last10Errors := [],
    warningOutputs := [], infoOutputs := [] }

/-- The constructor `LogCategory(QString nme, QString desc)`. -/
def LogCategory.mk2 (nme desc : String) : LogCategory :=
  { LogCategory.empty with name := nme, description := desc }

/-- The answer of a spdlog factory function: given the loggers made so far, does making
this one succeed (otherwise it throws `spdlog_ex`). -/
abbrev Spdlog := List Logger → Logger → Bool

/-- One spdlog factory call: the logger, or `spdlog_ex`. -/
def Spdlog.create (sp : Spdlog) (made : List Logger) (l : Logger) : Except Exn Logger :=
  if sp made l then .ok l else .error Exn.spdlog_ex

/-- The constructor `LogOutput(QString, QUrl, QDateTime, QString)` (log.h 68-88). -/
def LogOutput.new (sp : Spdlog) (made : List Logger)
    (nme : String) (output : QUrl) (updateTmStmp : Nat) (updatedByUser : String) :
    Except Exn LogOutput :=
  let name := nme
  let path := output
  if path.scheme = "file" then
    match sp.create made (Logger.basic_logger_mt name path.path) with
    | .ok logger => .ok { name := name, type := OutputTypes.OutputFile, path := path,
                          updated := updateTmStmp, updatedBy := updatedByUser, logger := logger }
    | .error e => .error e
  else if path.scheme = "syslog" then
    match sp.create made (Logger.syslog_logger name path.path) with
    | .ok logger => .ok { name := name, type := OutputTypes.OutputSyslog, path := path,
                          updated := updateTmStmp, updatedBy := updatedByUser, logger := logger }
    | .error e => .error e
  else if path.scheme = "stdout" then
    match sp.create made (Logger.stdout_logger_mt name) with
    | .ok logger => .ok { name := name, type := OutputTypes.OutputStdOut, path := path,
                          updated := updateTmStmp, updatedBy := updatedByUser, logger := logger }
    | .error e => .error e
  else if path.scheme = "stderr" then
    match sp.create made (Logger.stderr_logger_mt name) with
    | .ok logger => .ok { name := name, type := OutputTypes.OutputStdErr, path := path,
                          updated := updateTmStmp, updatedBy := updatedByUser, logger := logger }
    | .error e => .error e
  else
    .error (Exn.invalid_argument "output")

/-! ## `QHash<QString, LogCategory>` -/

/-- A `QHash<QString, LogCategory>`: keys with their values, each key once. -/
abbrev QHash := List (String × LogCategory)

/-- The keys of the hash. -/
def QHash.keys (h : QHash) : List String := h.map Prod.fst

/-- `QHash::value(key)`: the stored value, or a default-constructed one. -/
def QHash.value : QHash → String → LogCategory
  | [], _ => LogCategory.empty
  | (k, v) :: rest, key => if k = key then v else QHash.value rest key

/-- The non-const `QHash::operator[](key)` followed by an update of the referenced value:
a key that is absent is first inserted with a default-constructed value. -/
def QHash.modify : QHash → String → (LogCategory → LogCategory) → QHash
  | [], key, f => [(key, f LogCategory.empty)]
  | (k, v) :: rest, key, f =>
      if k = key then (k, f v) :: rest else (k, v) :: QHash.modify rest key f

/-! ## What the program does to the outside world -/

/-- The SQL statements the program executes; the record of actions holds one entry for each
call of `exec()`. -/
inductive SqlStmt where
  | pragmaForeignKeys
  | pragmaForeignKeyCheck
  | checkTables
  | selectLogs
  | selectCategories (key : Nat)
deriving DecidableEq, Repr

/-- One observable action, in program order. The Qt message handlers take the list of
streamed items. -/
inductive Event where
  | qDebug (items : List String)
  | qInfo (items : List String)
  | qWarning (items : List String)
  | qCritical (items : List String)
  | sql (stmt : SqlStmt)
  | write (logger : Logger) (level : Level) (msg : String) (args : List String)
  | listen (port : Int)
deriving DecidableEq, Repr

/-! ## The configuration database, seen from the program -/

/-- A row of the table Logs, in the column order of the SELECT of log.h 127. -/
structure LogsRow where
  Log_Key : Nat
  Log_Name : String
  Log_Path : QUrl
  Updt_TmStmp : Nat
  Updt_User : String
deriving DecidableEq, Repr

/-- A row of the table Logs_Log_Categories. -/
structure CategoryRow where
  Log_Key : Nat
  Log_Category : String
  Log_Levels : String
deriving DecidableEq, Repr

/-- Everything the program asks of its environment: the file system, the SQLite driver,
the two tables in storage order, and spdlog. `configDir` is the build constant
`_CONFIG_DIR`. -/
structure ConfEnv where
  configDir : String
  fileExists : Bool
  openOk : Bool
  lastError : String
  enableForeignKeysExec : Bool
  foreignKeyCheckExec : Bool
  foreignKeyCheckNext : Bool
  foreignKeyCheckSize : Int
  checkTablesExec : Bool
  checkTablesNext : Bool
  checkTablesCount : Int
  logsQueryExec : Bool
  Logs : List LogsRow
  getCategoriesExec : Nat → Bool
  Logs_Log_Categories : List CategoryRow
  spdlog : Spdlog

/-- The rows the query of log.h 138-143 returns for one key. -/
def ConfEnv.categoriesOf (env : ConfEnv) (key : Nat) : List CategoryRow :=
  env.Logs_Log_Categories.filter (fun c => c.Log_Key = key)

/-- The same environment with other rows in the table Logs. -/
def ConfEnv.withLogs (env : ConfEnv) (rows : List LogsRow) : ConfEnv :=
  { env with Logs := rows }

/-! ## The process state -/

/-- The static members of `Log` (main.cpp 20-29), the default SQL connection, and the
record of what has been done so far. -/
structure LogState where
  Categories : QHash
  Outputs : List LogOutput
  isInit : Bool
  dbValid : Bool
  dbOpen : Bool
  trace : List Event
deriving DecidableEq, Repr

/-- Append one action to the record. -/
def LogState.emit (s : LogState) (e : Event) : LogState :=
  { s with trace := s.trace ++ [e] }

/-- The names declared in main.cpp 20-27. -/
def predeclared : List String :=
  ["Connection", "Authentication", "File System", "Core", "Web Server", "Registration"]

/-- The initialiser of `Log::Categories` (main.cpp 20-27). -/
def Categories0 : QHash :=
  [ ("Connection", LogCategory.mk2 "Connection" "Messages related to client connections."),
    ("Authentication",
      LogCategory.mk2 "Authentication" "Messages generated during client authentication."),
    ("File System",
      LogCategory.mk2 "File System"
        "Various technical messages generated while processing requests."),
    ("Core",
      LogCategory.mk2 "Core"
        "Messages related to the server status including configuration changes."),
    ("Web Server", LogCategory.mk2 "Web Server" "Messages related to the web server."),
    ("Registration",
      LogCategory.mk2 "Registration"
        "Messages related to the registration of new users and computers.") ]

/-- The state at process start (main.cpp 20-29): six categories without sinks, no outputs,
`isInit` false, no SQL connection. -/
def fresh : LogState :=
  { Categories := Categories0, Outputs := [], isInit := false,
    dbValid := false, dbOpen := false, trace := [] }

/-- How a call ends: it returns, the process exits, or an exception leaves the function. -/
inductive Outcome where
  | returned (s : LogState)
  | exited (code : Int) (s : LogState)
  | threw (e : Exn) (s : LogState)
deriving DecidableEq, Repr

/-- The state a call ends in. -/
def Outcome.state : Outcome → LogState
  | .returned s => s
  | .exited _ s => s
  | .threw _ s => s

/-! ## The dispatcher bodies (log.h 171-178, 186-193, 201-208) -/

/-- Modelled from the spec: the helper `ToChr` of common.h is not among the sources; the
spec says the prefixed template itself is forwarded to the sink, so it is the identity on
the text. -/
def ToChr (msg : String) : String := msg

/-- The message built at log.h 171-174. -/
def buildMsg (category : LogCategory) (fmt : String) : String :=
  let msg := category.name
  let msg := "[" ++ msg
  let msg := msg ++ "] "
  msg ++ fmt

/-- The for loop of the three dispatchers: one write per entry, in index order. -/
def writeAll (level : Level) (msg : String) (args : List String) :
    List LogOutput → LogState → LogState
  | [], s => s
  | o :: os, s => writeAll level msg args os (s.emit (Event.write o.logger level msg args))

/-- Lines 171-178 of `Log::error`, after the `isInit` guard. -/
def Log.errorBody (category : LogCategory) (fmt : String) (args : List String)
    (s : LogState) : LogState :=
  writeAll Level.error (ToChr (buildMsg category fmt)) args category.errorOutputs s

/-- Lines 186-193 of `Log::warn`, after the `isInit` guard. -/
def Log.warnBody (category : LogCategory) (fmt : String) (args : List String)
    (s : LogState) : LogState :=
  writeAll Level.warn (ToChr (buildMsg category fmt)) args category.warningOutputs s

/-- Lines 201-208 of `Log::info`, after the `isInit` guard. -/
def Log.infoBody (category : LogCategory) (fmt : String) (args : List String)
    (s : LogState) : LogState :=
  writeAll Level.info (ToChr (buildMsg category fmt)) args category.infoOutputs s

/-- A `const LogCategory&` argument: the object it refers to is read when it is used, so
it is a function of the state (a fixed object is a constant function). -/
abbrev CategoryRef := LogState → LogCategory

/-- The expression `Log::Categories[key]` evaluated by a caller: the non-const
`operator[]`, which inserts a default category for an absent key. -/
def indexCategories (key : String) (s : LogState) : LogState :=
  { s with Categories := QHash.modify s.Categories key id }

/-- The reference `Log::Categories[key]` yields. -/
def categoryRef (key : String) : CategoryRef :=
  fun s => QHash.value s.Categories key

/-! ## `getConfDB` (main.cpp 157-212) -/

/-- The report made on a failure inside `getConfDB`: `Log::error` on the Core category when
`isInit` holds (so the guard of `Log::error` is not taken), `qCritical` otherwise. -/
def reportConfDB (fmt : String) (args : List String) (critical : List String)
    (s : LogState) : LogState :=
  if s.isInit then
    let s := indexCategories "Core" s
    Log.errorBody (categoryRef "Core" s) fmt args s
  else
    s.emit (Event.qCritical critical)

/-- Lines 172-211 of `getConfDB`: open the connection if it is not open, switch foreign
keys on and check them. -/
def openConfDB (env : ConfEnv) (s : LogState) : LogState × Bool :=
  if !s.dbOpen then
    if env.openOk == false then
      (reportConfDB "Cannot open config database: {0}" [env.lastError]
        ["Error opening config DB:", env.lastError] s, false)
    else
      let s := { s with dbOpen := true }
      let s := s.emit (Event.sql SqlStmt.pragmaForeignKeys)
      if env.enableForeignKeysExec == false then
        (reportConfDB "Error while turning on foreign keys on config database: {0}"
          [env.lastError]
          ["Error while turning on foreign keys on config DB:", env.lastError] s, false)
      else
        let s := s.emit (Event.sql SqlStmt.pragmaForeignKeyCheck)
        if env.foreignKeyCheckExec == false then
          (reportConfDB "Error while running foreign key checks on config database: {0}"
            [env.lastError]
            ["Error while running Foreign Key checks on config DB:", env.lastError] s, false)
        else if env.foreignKeyCheckNext then
          let s := s.emit (Event.qInfo [toString env.foreignKeyCheckSize])
          (reportConfDB
            "One or more Foreign Key violations have been detected in the config DB! Unable to load config."
            []
            ["One or more Foreign Key violations have been detected in the config DB."] s,
            false)
        else
          (s, true)
  else
    (s, true)

/-- The function `getConfDB`: the state afterwards and whether the returned handle
`isValid()`. `dbValid` says that the default connection exists (`addDatabase` was
called). -/
def getConfDB (env : ConfEnv) (s : LogState) : LogState × Bool :=
  if !s.dbValid then
    let s := { s with dbValid := true }
    if env.fileExists == false then
      (reportConfDB "The database could not be found at {0}/config.db." [env.configDir]
        ["The database could not be found at " ++ env.configDir ++ "/config.db."] s, false)
    else
      openConfDB env s
  else
    openConfDB env s

/-! ## `Log::init` (log.h 101-163) -/

/-- The three tests of log.h 149-154 for one row of Logs_Log_Categories; `last` is
`Outputs.last()`. -/
def bindCategory (last : LogOutput) (c : CategoryRow) (cats : QHash) : QHash :=
  let cats :=
    if QString.contains c.Log_Levels "error" then
      QHash.modify cats c.Log_Category
        (fun cat => { cat with errorOutputs := cat.errorOutputs ++ [last] })
    else cats
  let cats :=
    if QString.contains c.Log_Levels "warn" then
      QHash.modify cats c.Log_Category
        (fun cat => { cat with warningOutputs := cat.warningOutputs ++ [last] })
    else cats
  let cats :=
    if QString.contains c.Log_Levels "info" then
      QHash.modify cats c.Log_Category
        (fun cat => { cat with infoOutputs := cat.infoOutputs ++ [last] })
    else cats
  cats

/-- The inner while loop (log.h 148-155). -/
def bindCategories (last : LogOutput) : List CategoryRow → QHash → QHash
  | [], cats => cats
  | c :: cs, cats => bindCategories last cs (bindCategory last c cats)

/-- The loggers spdlog has registered: those held by `Outputs`. -/
def LogState.loggers (s : LogState) : List Logger := s.Outputs.map (fun o => o.logger)

/-- One pass through the body of the outer while loop (log.h 135-159), the try block and
its handler included. -/
def processRow (env : ConfEnv) (s : LogState) (r : LogsRow) : Outcome :=
  match LogOutput.new env.spdlog s.loggers r.Log_Name r.Log_Path r.Updt_TmStmp r.Updt_User with
  | .error (Exn.invalid_argument _) =>
      .returned (s.emit (Event.qWarning
        ["Warning: Unable to identify log backend for uri:", r.Log_Name]))
  | .error e => .threw e s
  | .ok out =>
      let outputs := s.Outputs ++ [out]
      let s := { s with Outputs := outputs }
      let s := s.emit (Event.sql (SqlStmt.selectCategories r.Log_Key))
      if !env.getCategoriesExec r.Log_Key then
        .exited 1 (s.emit (Event.qCritical
          ["Error while retrieving Log Categories from DB:", env.lastError]))
      else
        let last := outputs.getLast (by simp [outputs])
        let s := { s with
          Categories := bindCategories last (env.categoriesOf r.Log_Key) s.Categories }
        .returned (s.emit (Event.write last.logger Level.info "Opened {0} for logging."
          [r.Log_Path.scheme]))

/-- The outer while loop (log.h 134-160). -/
def processRows (env : ConfEnv) : LogState → List LogsRow → Outcome
  | s, [] => .returned s
  | s, r :: rs =>
      match processRow env s r with
      | .returned s => processRows env s rs
      | o => o

/-- The function `Log::init`. -/
def Log.init (env : ConfEnv) (s : LogState) : Outcome :=
  if s.isInit then
    .returned (s.emit (Event.qDebug ["Log init is called more than once."]))
  else
    let (s, valid) := getConfDB env s
    if !valid then
      .exited 1 s
    else
      let s := s.emit (Event.sql SqlStmt.checkTables)
      if !env.checkTablesExec || !env.checkTablesNext || env.checkTablesCount != 2 then
        .exited 1 (s.emit (Event.qCritical
          ["Error validating configuration database schema: The Logs and/or Logs_Log_Categories tables do not have the required columns."]))
      else
        let s := s.emit (Event.sql SqlStmt.selectLogs)
        if !env.logsQueryExec then
          .exited 1 (s.emit (Event.qCritical
            ["Error while retrieving Log configuration from DB:", env.lastError]))
        else
          match processRows env s env.Logs with
          | .returned s => .returned { s with isInit := true }
          | o => o

/-! ## `Log::error`, `Log::warn`, `Log::info` (log.h 165-209) -/

/-- The guard shared by the three dispatchers (log.h 166-169). -/
def initGuard (env : ConfEnv) (s : LogState) : Outcome :=
  if !s.isInit then
    Log.init env (s.emit (Event.qWarning ["Warning: Log called before init. Running init now."]))
  else
    .returned s

/-- The function `Log::error`. -/
def Log.error (env : ConfEnv) (category : CategoryRef) (fmt : String) (args : List String)
    (s : LogState) : Outcome :=
  match initGuard env s with
  | .returned s => .returned (Log.errorBody (category s) fmt args s)
  | o => o

/-- The function `Log::warn`. -/
def Log.warn (env : ConfEnv) (category : CategoryRef) (fmt : String) (args : List String)
    (s : LogState) : Outcome :=
  match initGuard env s with
  | .returned s => .returned (Log.warnBody (category s) fmt args s)
  | o => o

/-- The function `Log::info`. -/
def Log.info (env : ConfEnv) (category : CategoryRef) (fmt : String) (args : List String)
    (s : LogState) : Outcome :=
  match initGuard env s with
  | .returned s => .returned (Log.infoBody (category s) fmt args s)
  | o => o

/-! ## The listen port of `main` (main.cpp 145-152) -/

/-- Digits to a number, most significant first; `none` on a character that is no digit. -/
def parseDigits : List Char → Nat → Option Nat
  | [], acc => some acc
  | c :: cs, acc => if c.isDigit then parseDigits cs (acc * 10 + (c.toNat - 48)) else none

/-- An optionally signed, non-empty run of decimal digits. -/
def parseInt : List Char → Option Int
  | [] => none
  | c :: cs =>
      if c = '-' then
        if cs.isEmpty then none else (parseDigits cs 0).map (fun n => - (n : Int))
      else if c = '+' then
        if cs.isEmpty then none else (parseDigits cs 0).map (fun n => (n : Int))
      else (parseDigits (c :: cs) 0).map (fun n => (n : Int))

/-- Characters without the white space at both ends. -/
def trimChars (cs : List Char) : List Char :=
  ((cs.dropWhile Char.isWhitespace).reverse.dropWhile Char.isWhitespace).reverse

/-- `QString::toInt(bool *ok)` in base 10: the value and `*ok`. Surrounding white space is
ignored; when the text is no integer, or does not fit an `int`, the value is 0 and `*ok`
is false. -/
def QString.toInt (s : String) : Int × Bool :=
  match parseInt (trimChars s.data) with
  | some v => if -2147483648 ≤ v ∧ v ≤ 2147483647 then (v, true) else (0, false)
  | none => (0, false)

/-- The constant `UINT16_MAX`. -/
def UINT16_MAX : Int := 65535

/-- Lines 145-152 of `main`; `listenPort` is what `ServerSettings::get("ListenPort")`
returned. The call `server.listen(QHostAddress::Any, dbPort)` is recorded with `dbPort`. -/
def main_listen (env : ConfEnv) (listenPort : String) (s : LogState) : Outcome :=
  let (dbPort, settingOk) := QString.toInt listenPort
  if !settingOk && decide (dbPort > 0) && decide (dbPort < UINT16_MAX) then
    let s := indexCategories "Core" s
    match Log.error env (categoryRef "Core")
        "Listen port in config DB is not a valid port number." [] s with
    | .returned s => .exited 1 s
    | o => o
  else
    .returned (s.emit (Event.listen dbPort))

/-! ## Example configurations -/

/-- An environment in which every step outside the program succeeds. -/
def envOf (logs : List LogsRow) (cats : List CategoryRow) (sp : Spdlog) : ConfEnv :=
  { configDir := "/etc/ssnfs", fileExists := true, openOk := true, lastError := "",
    enableForeignKeysExec := true, foreignKeyCheckExec := true, foreignKeyCheckNext := false,
    foreignKeyCheckSize := 0, checkTablesExec := true, checkTablesNext := true,
    checkTablesCount := 2, logsQueryExec := true, Logs := logs,
    getCategoriesExec := fun _ => true, Logs_Log_Categories := cats, spdlog := sp }

/-- The end-to-end configuration of the specification: one file sink "main" bound to Core
with level text "error,warn". -/
def envMain : ConfEnv :=
  envOf [⟨1, "main", ⟨"file", "/var/log/ssnfs.log"⟩, 0, "admin"⟩]
    [⟨1, "Core", "error,warn"⟩] (fun _ _ => true)

/-- A stdout sink bound to a category that main.cpp does not declare. -/
def envBogus : ConfEnv :=
  envOf [⟨1, "console", ⟨"stdout", ""⟩, 0, "admin"⟩] [⟨1, "Bogus", "error"⟩] (fun _ _ => true)

/-- A file sink whose file cannot be opened. -/
def rowLocked : LogsRow := ⟨1, "locked", ⟨"file", "/proc/locked.log"⟩, 0, "admin"⟩

/-- A stdout sink. -/
def rowConsole : LogsRow := ⟨2, "console", ⟨"stdout", ""⟩, 0, "admin"⟩

/-- A spdlog that cannot open the file of `rowLocked` and opens everything else. -/
def spdlogLocked : Spdlog :=
  fun _ l => decide (l ≠ Logger.basic_logger_mt "locked" "/proc/locked.log")

/-- The unwritable file sink, followed by a stdout sink bound to Core. -/
def envUnwritable : ConfEnv :=
  envOf [rowLocked, rowConsole] [⟨2, "Core", "error"⟩] spdlogLocked

/-- The stdout sink bound to Core, followed by the unwritable file sink. -/
def envLockedSecond : ConfEnv :=
  envOf [rowConsole, rowLocked] [⟨2, "Core", "error"⟩] spdlogLocked

/-- The name a logger is registered under. -/
def Logger.name : Logger → String
  | .basic_logger_mt name _ => name
  | .syslog_logger name _ => name
  | .stdout_logger_mt name => name
  | .stderr_logger_mt name => name

/-- A spdlog that refuses a name that is already registered and opens everything else. -/
def spdlogOnce : Spdlog :=
  fun made l => decide (l.name ∉ made.map Logger.name)

/-- The end-to-end file sink and a stdout sink, both bound to Core, under a spdlog that
refuses registered names. -/
def envTwo : ConfEnv :=
  envOf [⟨1, "main", ⟨"file", "/var/log/ssnfs.log"⟩, 0, "admin"⟩,
         ⟨2, "console", ⟨"stdout", ""⟩, 0, "admin"⟩]
    [⟨1, "Core", "error,warn"⟩, ⟨2, "Core", "info"⟩] spdlogOnce

/-- The end-to-end configuration without its database file. -/
def envNoFile : ConfEnv := { envMain with fileExists := false }

/-! ## What the specification expects of a loaded configuration -/

/-- The four schemes the specification names. -/
def recognized (scheme : String) : Bool :=
  scheme = "file" || scheme = "syslog" || scheme = "stdout" || scheme = "stderr"

/-- The kind the specification gives a recognized scheme. -/
def specType (scheme : String) : OutputTypes :=
  if scheme = "file" then OutputTypes.OutputFile
  else if scheme = "syslog" then OutputTypes.OutputSyslog
  else if scheme = "stdout" then OutputTypes.OutputStdOut
  else OutputTypes.OutputStdErr

/-- The writer the specification gives a row: file-backed at the URI path, syslog, standard
output or standard error. -/
def specLogger (r : LogsRow) : Logger :=
  if r.Log_Path.scheme = "file" then Logger.basic_logger_mt r.Log_Name r.Log_Path.path
  else if r.Log_Path.scheme = "syslog" then Logger.syslog_logger r.Log_Name r.Log_Path.path
  else if r.Log_Path.scheme = "stdout" then Logger.stdout_logger_mt r.Log_Name
  else Logger.stderr_logger_mt r.Log_Name

/-- The sink the specification expects for a row with a recognized scheme. -/
def specSink (r : LogsRow) : LogOutput :=
  { name := r.Log_Name, type := specType r.Log_Path.scheme, path := r.Log_Path,
    updated := r.Updt_TmStmp, updatedBy := r.Updt_User, logger := specLogger r }

/-- The registry the specification expects: the rows with a recognized scheme, in storage
order. -/
def specOutputs (rows : List LogsRow) : List LogOutput :=
  (rows.filter (fun r => recognized r.Log_Path.scheme)).map specSink

/-- The entries the specification expects in one severity list of category `c`: for each
recognized row in storage order, one entry per binding of that row that names `c` and
whose level text contains the keyword `kw`. -/
def specSinks (env : ConfEnv) (kw c : String) : List LogsRow → List LogOutput
  | [] => []
  | r :: rs =>
      if recognized r.Log_Path.scheme then
        ((env.categoriesOf r.Log_Key).filter
            (fun b => decide (b.Log_Category = c) && QString.contains b.Log_Levels kw)).map
          (fun _ => specSink r) ++ specSinks env kw c rs
      else specSinks env kw c rs

/-- Every step of reading the configuration database succeeds: the connection, the schema
check, the query on Logs, and the bindings query of every row whose sink is constructed. -/
def ConfEnv.readable (env : ConfEnv) : Prop :=
  env.fileExists = true ∧ env.openOk = true ∧ env.enableForeignKeysExec = true ∧
  env.foreignKeyCheckExec = true ∧ env.foreignKeyCheckNext = false ∧
  env.checkTablesExec = true ∧ env.checkTablesNext = true ∧ env.checkTablesCount = 2 ∧
  env.logsQueryExec = true ∧
  ∀ r ∈ env.Logs, recognized r.Log_Path.scheme = true → env.getCategoriesExec r.Log_Key = true

/-- The state in which the outer loop of `Log::init` starts. -/
def rowsStart (env : ConfEnv) (s : LogState) : LogState :=
  (((getConfDB env s).1).emit (Event.sql SqlStmt.checkTables)).emit (Event.sql SqlStmt.selectLogs)

/-- A state without its record of actions. -/
def LogState.core (s : LogState) : LogState := { s with trace := [] }

/-- An outcome without the record of actions. -/
def Outcome.core : Outcome → Outcome
  | .returned s => .returned s.core
  | .exited c s => .exited c s.core
  | .threw e s => .threw e s.core

/-- One call of a dispatcher. -/
inductive LogCall where
  | error (category : CategoryRef) (fmt : String) (args : List String)
  | warn (category : CategoryRef) (fmt : String) (args : List String)
  | info (category : CategoryRef) (fmt : String) (args : List String)

/-- Run one dispatcher call. -/
def LogCall.run (env : ConfEnv) : LogCall → LogState → Outcome
  | .error c f a, s => Log.error env c f a s
  | .warn c f a, s => Log.warn env c f a s
  | .info c f a, s => Log.info env c f a s

/-- Run dispatcher calls one after the other, as long as they return. -/
def runCalls (env : ConfEnv) : List LogCall → LogState → Outcome
  | [], s => .returned s
  | c :: cs, s =>
      match c.run env s with
      | .returned s => runCalls env cs s
      | o => o

/-- Whether an action is a write to a sink. -/
def Event.isWrite : Event → Bool
  | .write _ _ _ _ => true
  | _ => false

/-- The entry one binding row adds to a severity list of category `c`. -/
def added (last : LogOutput) (kw c : String) (b : CategoryRow) : List LogOutput :=
  if decide (b.Log_Category = c) && QString.contains b.Log_Levels kw then [last] else []

/-- The state after a row whose sink was constructed and whose bindings were read. -/
def afterRow (env : ConfEnv) (s : LogState) (r : LogsRow) : LogState :=
  { s with
    Outputs := s.Outputs ++ [specSink r]
    Categories := bindCategories (specSink r) (env.categoriesOf r.Log_Key) s.Categories
    trace := s.trace ++ [Event.sql (SqlStmt.selectCategories r.Log_Key),
      Event.write (specLogger r) Level.info "Opened {0} for logging." [r.Log_Path.scheme]] }

/-! ## Lemmas on `QHash` and the binding loops -/

theorem QHash.value_modify (h : QHash) (k c : String) (f : LogCategory → LogCategory) :
    QHash.value (QHash.modify h k f) c = if k = c then f (QHash.value h c) else QHash.value h c := by
  induction h with
  | nil =>
      by_cases hk : k = c <;> simp [QHash.modify, QHash.value, hk]
  | cons p rest ih =>
      obtain ⟨k0, v0⟩ := p
      by_cases h0 : k0 = k
      · subst h0
        by_cases hk : k0 = c <;> simp [QHash.modify, QHash.value, hk]
      · by_cases h1 : k0 = c
        · subst h1
          have : ¬ k = k0 := fun e => h0 e.symm
          simp [QHash.modify, QHash.value, h0, this]
        · simp [QHash.modify, QHash.value, h0, h1, ih]

theorem QHash.keys_modify_of_mem (h : QHash) (k : String) (f : LogCategory → LogCategory)
    (hk : k ∈ QHash.keys h) : QHash.keys (QHash.modify h k f) = QHash.keys h := by
  induction h with
  | nil => simp [QHash.keys] at hk
  | cons p rest ih =>
      obtain ⟨k0, v0⟩ := p
      by_cases h0 : k0 = k
      · simp [QHash.modify, QHash.keys, h0]
      · have hk2 : k ∈ QHash.keys rest := by
          simp only [QHash.keys, List.map_cons, List.mem_cons] at hk
          rcases hk with hk | hk
          · exact absurd hk.symm h0
          · exact hk
        have := ih hk2
        simp only [QHash.keys] at this
        simp [QHash.modify, QHash.keys, h0, this]

theorem QHash.mem_keys_modify (h : QHash) (k c : String) (f : LogCategory → LogCategory)
    (hc : c ∈ QHash.keys h) : c ∈ QHash.keys (QHash.modify h k f) := by
  induction h with
  | nil => simp [QHash.keys] at hc
  | cons p rest ih =>
      obtain ⟨k0, v0⟩ := p
      simp only [QHash.keys, List.map_cons, List.mem_cons] at hc
      by_cases h0 : k0 = k
      · simp only [QHash.modify, h0, if_true, QHash.keys, List.map_cons, List.mem_cons]
        rcases hc with hc | hc
        · exact Or.inl (hc.trans h0)
        · exact Or.inr hc
      · simp only [QHash.modify, h0, if_false, QHash.keys, List.map_cons, List.mem_cons]
        rcases hc with hc | hc
        · exact Or.inl hc
        · exact Or.inr (ih hc)

theorem bindCategory_keys (last : LogOutput) (b : CategoryRow) (cats : QHash) (c : String)
    (hc : c ∈ QHash.keys cats) : c ∈ QHash.keys (bindCategory last b cats) := by
  unfold bindCategory
  by_cases he : QString.contains b.Log_Levels "error" = true <;>
  by_cases hw : QString.contains b.Log_Levels "warn" = true <;>
  by_cases hi : QString.contains b.Log_Levels "info" = true <;>
  simp only [he, hw, hi, if_true, if_false] <;>
  first
    | exact hc
    | exact QHash.mem_keys_modify _ _ _ _ hc
    | exact QHash.mem_keys_modify _ _ _ _ (QHash.mem_keys_modify _ _ _ _ hc)
    | exact QHash.mem_keys_modify _ _ _ _
        (QHash.mem_keys_modify _ _ _ _ (QHash.mem_keys_modify _ _ _ _ hc))

theorem bindCategories_keys (last : LogOutput) (bs : List CategoryRow) (cats : QHash)
    (c : String) (hc : c ∈ QHash.keys cats) : c ∈ QHash.keys (bindCategories last bs cats) := by
  induction bs generalizing cats with
  | nil => exact hc
  | cons b bs ih => exact ih _ (bindCategory_keys last b cats c hc)

theorem bindCategory_value (last : LogOutput) (b : CategoryRow) (cats : QHash) (c : String) :
    (QHash.value (bindCategory last b cats) c).errorOutputs
        = (QHash.value cats c).errorOutputs ++ added last "error" c b ∧
    (QHash.value (bindCategory last b cats) c).warningOutputs
        = (QHash.value cats c).warningOutputs ++ added last "warn" c b ∧
    (QHash.value (bindCategory last b cats) c).infoOutputs
        = (QHash.value cats c).infoOutputs ++ added last "info" c b ∧
    (QHash.value (bindCategory last b cats) c).name = (QHash.value cats c).name := by
  unfold bindCategory added
  by_cases hc : b.Log_Category = c <;>
  by_cases he : QString.contains b.Log_Levels "error" = true <;>
  by_cases hw : QString.contains b.Log_Levels "warn" = true <;>
  by_cases hi : QString.contains b.Log_Levels "info" = true <;>
  simp [hc, he, hw, hi, QHash.value_modify]

theorem bindCategories_value (last : LogOutput) (bs : List CategoryRow) (cats : QHash)
    (c : String) :
    (QHash.value (bindCategories last bs cats) c).errorOutputs
        = (QHash.value cats c).errorOutputs
          ++ (bs.filter (fun b => decide (b.Log_Category = c)
                && QString.contains b.Log_Levels "error")).map (fun _ => last) ∧
    (QHash.value (bindCategories last bs cats) c).warningOutputs
        = (QHash.value cats c).warningOutputs
          ++ (bs.filter (fun b => decide (b.Log_Category = c)
                && QString.contains b.Log_Levels "warn")).map (fun _ => last) ∧
    (QHash.value (bindCategories last bs cats) c).infoOutputs
        = (QHash.value cats c).infoOutputs
          ++ (bs.filter (fun b => decide (b.Log_Category = c)
                && QString.contains b.Log_Levels "info")).map (fun _ => last) ∧
    (QHash.value (bindCategories last bs cats) c).name = (QHash.value cats c).name := by
  induction bs generalizing cats with
  | nil => simp [bindCategories]
  | cons b bs ih =>
      obtain ⟨h1, h2, h3, h4⟩ := ih (bindCategory last b cats)
      obtain ⟨g1, g2, g3, g4⟩ := bindCategory_value last b cats c
      simp only [bindCategories]
      rw [h1, h2, h3, h4, g1, g2, g3, g4]
      simp only [added, List.filter_cons]
      refine ⟨?_, ?_, ?_⟩ <;> split <;> simp

/-! ## Lemmas on the constructor and on one row -/

theorem recognized_iff (scheme : String) :
    recognized scheme = true ↔
      scheme = "file" ∨ scheme = "syslog" ∨ scheme = "stdout" ∨ scheme = "stderr" := by
  simp [recognized, or_assoc]

theorem new_unrecognized (sp : Spdlog) (made : List Logger) (nme : String) (u : QUrl)
    (t : Nat) (who : String) (h : recognized u.scheme = false) :
    LogOutput.new sp made nme u t who = .error (Exn.invalid_argument "output") := by
  simp [recognized] at h
  obtain ⟨⟨⟨h1, h2⟩, h3⟩, h4⟩ := h
  simp [LogOutput.new, h1, h2, h3, h4]

theorem new_recognized (sp : Spdlog) (made : List Logger) (r : LogsRow)
    (h : recognized r.Log_Path.scheme = true) :
    LogOutput.new sp made r.Log_Name r.Log_Path r.Updt_TmStmp r.Updt_User
      = if sp made (specLogger r) then .ok (specSink r) else .error Exn.spdlog_ex := by
  rw [recognized_iff] at h
  by_cases h1 : r.Log_Path.scheme = "file"
  · by_cases hs : sp made (Logger.basic_logger_mt r.Log_Name r.Log_Path.path) = true <;>
      simp [LogOutput.new, Spdlog.create, specSink, specLogger, specType, h1, hs]
  · by_cases h2 : r.Log_Path.scheme = "syslog"
    · by_cases hs : sp made (Logger.syslog_logger r.Log_Name r.Log_Path.path) = true <;>
        simp [LogOutput.new, Spdlog.create, specSink, specLogger, specType, h2, hs]
    · by_cases h3 : r.Log_Path.scheme = "stdout"
      · by_cases hs : sp made (Logger.stdout_logger_mt r.Log_Name) = true <;>
          simp [LogOutput.new, Spdlog.create, specSink, specLogger, specType, h3, hs]
      · have h4 : r.Log_Path.scheme = "stderr" := by
          rcases h with h | h | h | h
          · exact absurd h h1
          · exact absurd h h2
          · exact absurd h h3
          · exact h
        by_cases hs : sp made (Logger.stderr_logger_mt r.Log_Name) = true <;>
          simp [LogOutput.new, Spdlog.create, specSink, specLogger, specType, h4, hs]

theorem processRow_unrecognized (env : ConfEnv) (s : LogState) (r : LogsRow)
    (h : recognized r.Log_Path.scheme = false) :
    processRow env s r = .returned (s.emit (Event.qWarning
      ["Warning: Unable to identify log backend for uri:", r.Log_Name])) := by
  simp [processRow, new_unrecognized _ _ _ _ _ _ h]

theorem processRow_fail (env : ConfEnv) (s : LogState) (r : LogsRow)
    (h : recognized r.Log_Path.scheme = true)
    (hs : env.spdlog s.loggers (specLogger r) = false) :
    processRow env s r = .threw Exn.spdlog_ex s := by
  simp [processRow, new_recognized _ _ _ h, hs]

theorem processRow_ok (env : ConfEnv) (s : LogState) (r : LogsRow)
    (h : recognized r.Log_Path.scheme = true)
    (hs : env.spdlog s.loggers (specLogger r) = true)
    (hq : env.getCategoriesExec r.Log_Key = true) :
    processRow env s r = .returned (afterRow env s r) := by
  simp [processRow, new_recognized _ _ _ h, hs, hq, afterRow, LogState.emit, specSink]

/-- The loop carries every sink list forward and appends what the specification expects,
when each recognized row constructs in the registry the loop has reached at that row. -/
theorem processRows_ok (env : ConfEnv) (rows : List LogsRow) (s : LogState)
    (hs : ∀ pre r post, rows = pre ++ r :: post → recognized r.Log_Path.scheme = true →
      env.spdlog (s.loggers ++ (specOutputs pre).map (fun o => o.logger)) (specLogger r) = true)
    (hq : ∀ r ∈ rows, recognized r.Log_Path.scheme = true →
      env.getCategoriesExec r.Log_Key = true) :
    ∃ s1, processRows env s rows = .returned s1 ∧
      s1.Outputs = s.Outputs ++ specOutputs rows ∧ s1.isInit = s.isInit ∧
      ∀ c, (QHash.value s1.Categories c).errorOutputs
              = (QHash.value s.Categories c).errorOutputs ++ specSinks env "error" c rows ∧
           (QHash.value s1.Categories c).warningOutputs
              = (QHash.value s.Categories c).warningOutputs ++ specSinks env "warn" c rows ∧
           (QHash.value s1.Categories c).infoOutputs
              = (QHash.value s.Categories c).infoOutputs ++ specSinks env "info" c rows ∧
           (QHash.value s1.Categories c).name = (QHash.value s.Categories c).name ∧
           (c ∈ QHash.keys s.Categories → c ∈ QHash.keys s1.Categories) := by
  induction rows generalizing s with
  | nil => exact ⟨s, rfl, by simp [specOutputs], rfl, fun c => by simp [specSinks]⟩
  | cons r rs ih =>
      have hq2 : ∀ x ∈ rs, recognized x.Log_Path.scheme = true →
          env.getCategoriesExec x.Log_Key = true :=
        fun x hx => hq x (List.mem_cons_of_mem _ hx)
      by_cases hr : recognized r.Log_Path.scheme = true
      · have hhead : env.spdlog s.loggers (specLogger r) = true := by
          have := hs [] r rs rfl hr
          simpa [specOutputs] using this
        have hs2 : ∀ pre x post, rs = pre ++ x :: post →
            recognized x.Log_Path.scheme = true →
            env.spdlog ((afterRow env s r).loggers
              ++ (specOutputs pre).map (fun o => o.logger)) (specLogger x) = true := by
          intro pre x post hrs hx
          have := hs (r :: pre) x post (by rw [hrs]; rfl) hx
          simpa [afterRow, LogState.loggers, specOutputs, hr, specSink] using this
        obtain ⟨s1, e1, o1, i1, c1⟩ := ih (afterRow env s r) hs2 hq2
        refine ⟨s1, ?_, ?_, ?_, ?_⟩
        · simp only [processRows]
          rw [processRow_ok env s r hr hhead (hq r (List.mem_cons_self _ _) hr)]
          exact e1
        · rw [o1]; simp [afterRow, specOutputs, hr]
        · rw [i1]; rfl
        · intro c
          obtain ⟨a1, a2, a3, a4, a5⟩ := c1 c
          obtain ⟨b1, b2, b3, b4⟩ :=
            bindCategories_value (specSink r) (env.categoriesOf r.Log_Key) s.Categories c
          simp only [afterRow] at a1 a2 a3 a4 a5
          rw [a1, a2, a3, a4, b1, b2, b3, b4]
          refine ⟨by simp [specSinks, hr], by simp [specSinks, hr], by simp [specSinks, hr],
            rfl, fun hc => a5 (bindCategories_keys _ _ _ _ hc)⟩
      · have hr2 : recognized r.Log_Path.scheme = false := by simpa using hr
        have hs2 : ∀ pre x post, rs = pre ++ x :: post →
            recognized x.Log_Path.scheme = true →
            env.spdlog ((s.emit (Event.qWarning
                ["Warning: Unable to identify log backend for uri:", r.Log_Name])).loggers
              ++ (specOutputs pre).map (fun o => o.logger)) (specLogger x) = true := by
          intro pre x post hrs hx
          have := hs (r :: pre) x post (by rw [hrs]; rfl) hx
          simpa [LogState.emit, LogState.loggers, specOutputs, hr2] using this
        obtain ⟨s1, e1, o1, i1, c1⟩ := ih (s.emit (Event.qWarning
          ["Warning: Unable to identify log backend for uri:", r.Log_Name])) hs2 hq2
        refine ⟨s1, ?_, ?_, ?_, ?_⟩
        · simp only [processRows]
          rw [processRow_unrecognized env s r hr2]
          exact e1
        · rw [o1]; simp [LogState.emit, specOutputs, hr2]
        · rw [i1]; rfl
        · intro c
          have := c1 c
          simpa [LogState.emit, specSinks, hr2] using this

/-! ## Lemmas on `getConfDB` and on the start of `Log::init` -/

theorem getConfDB_readable (env : ConfEnv) (h : env.readable) (s : LogState) :
    (getConfDB env s).2 = true ∧ (getConfDB env s).1.Outputs = s.Outputs ∧
    (getConfDB env s).1.Categories = s.Categories ∧ (getConfDB env s).1.isInit = s.isInit := by
  obtain ⟨h1, h2, h3, h4, h5, -⟩ := h
  by_cases hv : s.dbValid = true <;> by_cases ho : s.dbOpen = true <;>
    simp [getConfDB, openConfDB, LogState.emit, h1, h2, h3, h4, h5, hv, ho]

theorem init_readable (env : ConfEnv) (h : env.readable) (s : LogState)
    (hi : s.isInit = false) :
    Log.init env s =
      match processRows env (rowsStart env s) env.Logs with
      | .returned s => .returned { s with isInit := true }
      | o => o := by
  have hg := (getConfDB_readable env h s).1
  obtain ⟨-, -, -, -, -, h6, h7, h8, h9, -⟩ := h
  unfold Log.init
  simp only [hi, Bool.false_eq_true, if_false]
  generalize hgc : getConfDB env s = p at hg
  obtain ⟨s0, valid⟩ := p
  simp only at hg
  subst hg
  simp [h6, h7, h8, h9, rowsStart, hgc]

theorem rowsStart_readable (env : ConfEnv) (h : env.readable) (s : LogState) :
    (rowsStart env s).Outputs = s.Outputs ∧ (rowsStart env s).Categories = s.Categories ∧
    (rowsStart env s).isInit = s.isInit := by
  obtain ⟨-, h2, h3, h4⟩ := getConfDB_readable env h s
  exact ⟨h2, h3, h4⟩

theorem Categories0_value (c : String) :
    (QHash.value Categories0 c).errorOutputs = [] ∧
    (QHash.value Categories0 c).warningOutputs = [] ∧
    (QHash.value Categories0 c).infoOutputs = [] := by
  simp only [Categories0, QHash.value, LogCategory.mk2, LogCategory.empty]
  split_ifs <;> exact ⟨rfl, rfl, rfl⟩

/-! ## Lemmas: the record of actions does not steer the loop -/

theorem core_emit (s : LogState) (e : Event) : (s.emit e).core = s.core := rfl

theorem Outcome.core_state (o : Outcome) :
    o.core.state.Outputs = o.state.Outputs ∧ o.core.state.Categories = o.state.Categories ∧
    o.core.state.isInit = o.state.isInit := by
  cases o <;> exact ⟨rfl, rfl, rfl⟩

theorem processRow_core (env : ConfEnv) (s : LogState) (r : LogsRow) :
    (processRow env s r).core = (processRow env s.core r).core := by
  unfold processRow
  have hl : s.core.loggers = s.loggers := rfl
  rw [hl]
  cases LogOutput.new env.spdlog s.loggers r.Log_Name r.Log_Path r.Updt_TmStmp r.Updt_User with
  | error e =>
      cases e <;> rfl
  | ok out =>
      by_cases hq : env.getCategoriesExec r.Log_Key = true <;>
        simp [hq, Outcome.core, LogState.core, LogState.emit]

theorem processRow_congr (env : ConfEnv) (s t : LogState) (r : LogsRow) (h : s.core = t.core) :
    (processRow env s r).core = (processRow env t r).core := by
  rw [processRow_core env s r, processRow_core env t r, h]

theorem processRows_congr (env : ConfEnv) (rows : List LogsRow) (s t : LogState)
    (h : s.core = t.core) :
    (processRows env s rows).core = (processRows env t rows).core := by
  induction rows generalizing s t with
  | nil => simp [processRows, Outcome.core, h]
  | cons r rs ih =>
      have hc := processRow_congr env s t r h
      simp only [processRows]
      cases hs : processRow env s r <;> cases ht : processRow env t r <;>
        rw [hs, ht] at hc <;> simp only [Outcome.core, Outcome.returned.injEq,
          Outcome.exited.injEq, Outcome.threw.injEq, reduceCtorEq] at hc
      · exact ih _ _ hc
      · simp [Outcome.core, hc]
      · simp [Outcome.core, hc]

theorem processRows_skip (env : ConfEnv) (pre post : List LogsRow) (bad : LogsRow)
    (h : recognized bad.Log_Path.scheme = false) (s : LogState) :
    (processRows env s (pre ++ bad :: post)).core = (processRows env s (pre ++ post)).core := by
  induction pre generalizing s with
  | nil =>
      simp only [List.nil_append, processRows, processRow_unrecognized env s bad h]
      exact processRows_congr env post _ _ (core_emit s _)
  | cons r rs ih =>
      simp only [List.cons_append, processRows]
      cases processRow env s r with
      | returned s1 => exact ih s1
      | exited c s1 => rfl
      | threw e s1 => rfl

theorem processRows_withLogs (env : ConfEnv) (x rows : List LogsRow) (s : LogState) :
    processRows (env.withLogs x) s rows = processRows env s rows := by
  induction rows generalizing s with
  | nil => rfl
  | cons r rs ih =>
      have h1 : processRow (env.withLogs x) s r = processRow env s r := rfl
      simp only [processRows, h1]
      cases processRow env s r with
      | returned s1 => exact ih s1
      | exited c s1 => rfl
      | threw e s1 => rfl

theorem init_skip (env : ConfEnv) (pre post : List LogsRow) (bad : LogsRow)
    (h : recognized bad.Log_Path.scheme = false) (s : LogState) :
    (Log.init (env.withLogs (pre ++ bad :: post)) s).core
      = (Log.init (env.withLogs (pre ++ post)) s).core := by
  have hg : ∀ x, getConfDB (env.withLogs x) s = getConfDB env s := fun _ => rfl
  unfold Log.init
  by_cases hi : s.isInit = true
  · simp [hi]
  · simp only [hi, if_false, hg, processRows_withLogs]
    generalize getConfDB env s = p
    obtain ⟨s0, valid⟩ := p
    cases valid
    · rfl
    · simp only [Bool.not_true, Bool.false_eq_true, if_false, ConfEnv.withLogs]
      by_cases h1 : (!env.checkTablesExec || !env.checkTablesNext
          || env.checkTablesCount != 2) = true
      · simp [h1]
      · by_cases h2 : env.logsQueryExec = true
        · simp only [h1, h2, if_false, Bool.not_true, Bool.false_eq_true]
          have hk := processRows_skip env pre post bad h
            ((s0.emit (Event.sql SqlStmt.checkTables)).emit (Event.sql SqlStmt.selectLogs))
          revert hk
          cases processRows env ((s0.emit (Event.sql SqlStmt.checkTables)).emit
              (Event.sql SqlStmt.selectLogs)) (pre ++ bad :: post) <;>
            cases processRows env ((s0.emit (Event.sql SqlStmt.checkTables)).emit
              (Event.sql SqlStmt.selectLogs)) (pre ++ post) <;>
            intro hk <;>
            simp only [Outcome.core, Outcome.returned.injEq, Outcome.exited.injEq,
              Outcome.threw.injEq, reduceCtorEq] at hk ⊢
          · simp only [LogState.core, LogState.mk.injEq] at hk ⊢
            simp [hk]
          · exact hk
          · exact hk
        · simp [h1, h2]

theorem init_returned_isInit (env : ConfEnv) (s s1 : LogState)
    (h : Log.init env s = .returned s1) : s1.isInit = true := by
  unfold Log.init at h
  by_cases h0 : s.isInit = true
  · simp only [h0, if_true, Outcome.returned.injEq] at h
    rw [← h]; exact h0
  · simp only [h0, if_false] at h
    generalize getConfDB env s = p at h
    obtain ⟨s2, valid⟩ := p
    cases valid
    · simp at h
    · simp only [Bool.not_true, Bool.false_eq_true, if_false] at h
      by_cases h1 : (!env.checkTablesExec || !env.checkTablesNext
          || env.checkTablesCount != 2) = true
      · simp [h1] at h
      · by_cases h2 : env.logsQueryExec = true
        · simp only [h1, h2, if_false, Bool.not_true, Bool.false_eq_true] at h
          cases hp : processRows env ((s2.emit (Event.sql SqlStmt.checkTables)).emit
              (Event.sql SqlStmt.selectLogs)) env.Logs with
          | returned s3 =>
              rw [hp] at h
              simp only [Outcome.returned.injEq] at h
              rw [← h]
          | exited c s3 => rw [hp] at h; simp at h
          | threw e s3 => rw [hp] at h; simp at h
        · simp [h1, h2] at h

/-! ## Lemmas on the dispatchers -/

theorem writeAll_eq (level : Level) (msg : String) (args : List String) (os : List LogOutput)
    (s : LogState) :
    writeAll level msg args os s
      = { s with trace := s.trace ++ os.map (fun o => Event.write o.logger level msg args) } := by
  induction os generalizing s with
  | nil => simp [writeAll]
  | cons o os ih => simp [writeAll, ih, LogState.emit]

theorem buildMsg_eq (category : LogCategory) (fmt : String) :
    ToChr (buildMsg category fmt) = "[" ++ category.name ++ "] " ++ fmt := by
  simp [ToChr, buildMsg, String.append_assoc]

theorem initGuard_ready (env : ConfEnv) (s : LogState) (h : s.isInit = true) :
    initGuard env s = .returned s := by
  simp [initGuard, h]

theorem run_ready (env : ConfEnv) (call : LogCall) (s : LogState) (h : s.isInit = true) :
    ∃ ws, call.run env s = .returned { s with trace := s.trace ++ ws } ∧
      ∀ e ∈ ws, e.isWrite = true := by
  cases call with
  | error c f a =>
      refine ⟨(c s).errorOutputs.map
        (fun o => Event.write o.logger Level.error (ToChr (buildMsg (c s) f)) a), ?_, ?_⟩
      · simp only [LogCall.run, Log.error, initGuard_ready env s h, Log.errorBody, writeAll_eq]
      · intro e he
        simp only [List.mem_map] at he
        obtain ⟨o, -, rfl⟩ := he
        rfl
  | warn c f a =>
      refine ⟨(c s).warningOutputs.map
        (fun o => Event.write o.logger Level.warn (ToChr (buildMsg (c s) f)) a), ?_, ?_⟩
      · simp only [LogCall.run, Log.warn, initGuard_ready env s h, Log.warnBody, writeAll_eq]
      · intro e he
        simp only [List.mem_map] at he
        obtain ⟨o, -, rfl⟩ := he
        rfl
  | info c f a =>
      refine ⟨(c s).infoOutputs.map
        (fun o => Event.write o.logger Level.info (ToChr (buildMsg (c s) f)) a), ?_, ?_⟩
      · simp only [LogCall.run, Log.info, initGuard_ready env s h, Log.infoBody, writeAll_eq]
      · intro e he
        simp only [List.mem_map] at he
        obtain ⟨o, -, rfl⟩ := he
        rfl

theorem runCalls_ready (env : ConfEnv) (cs : List LogCall) (s : LogState) (h : s.isInit = true) :
    ∃ ws, runCalls env cs s = .returned { s with trace := s.trace ++ ws } ∧
      ∀ e ∈ ws, e.isWrite = true := by
  induction cs generalizing s with
  | nil => exact ⟨[], by simp [runCalls], by simp⟩
  | cons c cs ih =>
      obtain ⟨ws, e1, w1⟩ := run_ready env c s h
      obtain ⟨ws2, e2, w2⟩ := ih { s with trace := s.trace ++ ws } h
      refine ⟨ws ++ ws2, ?_, ?_⟩
      · simp only [runCalls, e1, e2, List.append_assoc]
      · intro e he
        rcases List.mem_append.mp he with he | he
        · exact w1 e he
        · exact w2 e he

/-! ## Lemmas on the loop when a row fails -/

theorem processRow_isInit (env : ConfEnv) (s s1 : LogState) (r : LogsRow)
    (h : processRow env s r = .returned s1) : s1.isInit = s.isInit := by
  unfold processRow at h
  cases hn : LogOutput.new env.spdlog s.loggers r.Log_Name r.Log_Path r.Updt_TmStmp
      r.Updt_User with
  | error e =>
      rw [hn] at h
      cases e with
      | invalid_argument w =>
          simp only [Outcome.returned.injEq] at h
          rw [← h]; rfl
      | spdlog_ex => simp at h
  | ok out =>
      rw [hn] at h
      by_cases hq : env.getCategoriesExec r.Log_Key = true
      · simp only [hq, Bool.not_true, Bool.false_eq_true, if_false,
          Outcome.returned.injEq] at h
        rw [← h]; rfl
      · simp [hq] at h

theorem processRows_isInit (env : ConfEnv) (rows : List LogsRow) (s s1 : LogState)
    (h : processRows env s rows = .returned s1) : s1.isInit = s.isInit := by
  induction rows generalizing s with
  | nil =>
      simp only [processRows, Outcome.returned.injEq] at h
      rw [h]
  | cons r rs ih =>
      simp only [processRows] at h
      cases hp : processRow env s r with
      | returned s2 =>
          rw [hp] at h
          rw [ih s2 h, processRow_isInit env s s2 r hp]
      | exited c s2 => rw [hp] at h; simp at h
      | threw e s2 => rw [hp] at h; simp at h

theorem processRows_append (env : ConfEnv) (pre rest : List LogsRow) (s s1 : LogState)
    (h : processRows env s pre = .returned s1) :
    processRows env s (pre ++ rest) = processRows env s1 rest := by
  induction pre generalizing s with
  | nil =>
      simp only [processRows, Outcome.returned.injEq] at h
      rw [h]; rfl
  | cons r rs ih =>
      simp only [processRows, List.cons_append] at h ⊢
      cases hp : processRow env s r with
      | returned s2 =>
          rw [hp] at h
          exact ih s2 h
      | exited c s2 => rw [hp] at h; simp at h
      | threw e s2 => rw [hp] at h; simp at h

/-! ## Lemmas on the listen port -/

theorem toInt_failed (text : String) (h : (QString.toInt text).2 = false) :
    (QString.toInt text).1 = 0 := by
  unfold QString.toInt at h ⊢
  split
  · rename_i v hv
    rw [hv] at h
    split_ifs at h ⊢ <;> simp_all
  · rfl

theorem main_listen_always_listens (env : ConfEnv) (text : String) (s : LogState) :
    main_listen env text s = .returned (s.emit (Event.listen (QString.toInt text).1)) := by
  unfold main_listen
  have hf := toInt_failed text
  generalize QString.toInt text = p at hf
  obtain ⟨dbPort, settingOk⟩ := p
  cases settingOk
  · have : dbPort = 0 := hf rfl
    subst this
    simp
  · simp

/-! ## The claims -/

/-- C1: for a readable configuration in which every sink with a recognized scheme
constructs (its spdlog writer opens in the registry that `Log::init` has reached at that row:
the loggers of the recognized rows before it), `Log::init` from the fresh state returns with
`Outputs` equal to the recognized rows in storage order and with every pre-declared category
still present and holding, per severity, exactly one entry per binding of a recognized row
that names it and whose level text contains the keyword; a level text "error,warn" adds its
sink to the error and warning lists of the named category and leaves the info list as it
was. -/
theorem C1_init_loads_configuration (env : ConfEnv) (hread : env.readable)
    (hopen : ∀ pre r post, env.Logs = pre ++ r :: post →
      recognized r.Log_Path.scheme = true →
      env.spdlog ((specOutputs pre).map (fun o => o.logger)) (specLogger r) = true) :
    (∃ s1, Log.init env fresh = .returned s1 ∧ s1.isInit = true ∧
      s1.Outputs = specOutputs env.Logs ∧
      ∀ c ∈ predeclared, c ∈ QHash.keys s1.Categories ∧
        (QHash.value s1.Categories c).errorOutputs = specSinks env "error" c env.Logs ∧
        (QHash.value s1.Categories c).warningOutputs = specSinks env "warn" c env.Logs ∧
        (QHash.value s1.Categories c).infoOutputs = specSinks env "info" c env.Logs) ∧
    (∀ (last : LogOutput) (b : CategoryRow) (cats : QHash), b.Log_Levels = "error,warn" →
      (QHash.value (bindCategory last b cats) b.Log_Category).errorOutputs
        = (QHash.value cats b.Log_Category).errorOutputs ++ [last] ∧
      (QHash.value (bindCategory last b cats) b.Log_Category).warningOutputs
        = (QHash.value cats b.Log_Category).warningOutputs ++ [last] ∧
      (QHash.value (bindCategory last b cats) b.Log_Category).infoOutputs
        = (QHash.value cats b.Log_Category).infoOutputs) := by
  constructor
  · obtain ⟨r1, r2, r3⟩ := rowsStart_readable env hread fresh
    have hl : (rowsStart env fresh).loggers = [] := by
      simp only [LogState.loggers, r1]; rfl
    have hopen2 : ∀ pre r post, env.Logs = pre ++ r :: post →
        recognized r.Log_Path.scheme = true →
        env.spdlog ((rowsStart env fresh).loggers
          ++ (specOutputs pre).map (fun o => o.logger)) (specLogger r) = true := by
      intro pre r post h1 h2
      rw [hl, List.nil_append]
      exact hopen pre r post h1 h2
    obtain ⟨s1, e1, o1, i1, c1⟩ := processRows_ok env env.Logs (rowsStart env fresh) hopen2
      hread.2.2.2.2.2.2.2.2.2
    refine ⟨{ s1 with isInit := true }, ?_, rfl, ?_, ?_⟩
    · rw [init_readable env hread fresh rfl, e1]
    · show s1.Outputs = _
      rw [o1, r1]; rfl
    · intro c hc
      obtain ⟨a1, a2, a3, -, a5⟩ := c1 c
      obtain ⟨z1, z2, z3⟩ := Categories0_value c
      rw [r2] at a1 a2 a3 a5
      have hk : c ∈ QHash.keys fresh.Categories := by
        simpa [fresh, Categories0, QHash.keys, predeclared] using hc
      refine ⟨a5 hk, ?_, ?_, ?_⟩
      · show (QHash.value s1.Categories c).errorOutputs = _
        rw [a1]; show (QHash.value Categories0 c).errorOutputs ++ _ = _
        rw [z1]; rfl
      · show (QHash.value s1.Categories c).warningOutputs = _
        rw [a2]; show (QHash.value Categories0 c).warningOutputs ++ _ = _
        rw [z2]; rfl
      · show (QHash.value s1.Categories c).infoOutputs = _
        rw [a3]; show (QHash.value Categories0 c).infoOutputs ++ _ = _
        rw [z3]; rfl
  · intro last b cats hb
    obtain ⟨g1, g2, g3, -⟩ := bindCategory_value last b cats b.Log_Category
    rw [g1, g2, g3]
    have e1 : QString.contains "error,warn" "error" = true := by decide
    have e2 : QString.contains "error,warn" "warn" = true := by decide
    have e3 : QString.contains "error,warn" "info" = false := by decide
    simp [added, hb, e1, e2, e3]

/-- Under a spdlog that refuses a registered name, the end-to-end file sink "main" and a
stdout sink "console" load as C1 says: Core has "main" in its error and warning lists and
"console" in its info list. -/
theorem C1_init_loads_configuration_witness :
    envTwo.readable ∧
    envTwo.spdlog [Logger.basic_logger_mt "main" "/var/log/ssnfs.log"]
      (Logger.basic_logger_mt "main" "/var/log/ssnfs.log") = false ∧
    ∃ s1, Log.init envTwo fresh = .returned s1 ∧
      s1.Outputs.map (fun o => o.name) = ["main", "console"] ∧
      (QHash.value s1.Categories "Core").errorOutputs.map (fun o => o.name) = ["main"] ∧
      (QHash.value s1.Categories "Core").warningOutputs.map (fun o => o.name) = ["main"] ∧
      (QHash.value s1.Categories "Core").infoOutputs.map (fun o => o.name) = ["console"] := by
  have hread : envTwo.readable := by
    simp [ConfEnv.readable, envTwo, envOf]
  have hopen : ∀ pre r post, envTwo.Logs = pre ++ r :: post →
      recognized r.Log_Path.scheme = true →
      envTwo.spdlog ((specOutputs pre).map (fun o => o.logger)) (specLogger r) = true := by
    intro pre r post h _
    rcases pre with _ | ⟨p1, _ | ⟨p2, pre⟩⟩
    · simp only [envTwo, envOf, List.nil_append, List.cons.injEq] at h
      obtain ⟨rfl, -⟩ := h
      decide
    · simp only [envTwo, envOf, List.cons_append, List.nil_append, List.cons.injEq] at h
      obtain ⟨rfl, rfl, -⟩ := h
      decide
    · simp [envTwo, envOf] at h
  obtain ⟨⟨s1, e1, -, o1, c1⟩, -⟩ := C1_init_loads_configuration envTwo hread hopen
  obtain ⟨-, a1, a2, a3⟩ := c1 "Core" (by decide)
  refine ⟨hread, by decide, s1, e1, ?_, ?_, ?_, ?_⟩
  · rw [o1]; decide
  · rw [a1]; decide
  · rw [a2]; decide
  · rw [a3]; decide

/-- C2: a row whose scheme is none of file, syslog, stdout, stderr is skipped: processing it
returns with `Outputs`, `Categories` and `isInit` as they were, and `Log::init` on the rows
with that row ends as `Log::init` on the rows without it (same kind of outcome, same
`Outputs`, same category lists, same `isInit`). -/
theorem C2_unrecognized_row_skipped (env : ConfEnv) (pre post : List LogsRow) (bad : LogsRow)
    (h : recognized bad.Log_Path.scheme = false) (s : LogState) :
    (∀ t, ∃ t1, processRow env t bad = .returned t1 ∧ t1.Outputs = t.Outputs ∧
      t1.Categories = t.Categories ∧ t1.isInit = t.isInit) ∧
    (Log.init (env.withLogs (pre ++ bad :: post)) s).core
      = (Log.init (env.withLogs (pre ++ post)) s).core ∧
    (Log.init (env.withLogs (pre ++ bad :: post)) s).state.Outputs
      = (Log.init (env.withLogs (pre ++ post)) s).state.Outputs ∧
    (Log.init (env.withLogs (pre ++ bad :: post)) s).state.Categories
      = (Log.init (env.withLogs (pre ++ post)) s).state.Categories := by
  have hk := init_skip env pre post bad h s
  refine ⟨fun t => ⟨_, processRow_unrecognized env t bad h, rfl, rfl, rfl⟩, hk, ?_, ?_⟩
  · rw [← (Outcome.core_state _).1, hk, (Outcome.core_state _).1]
  · rw [← (Outcome.core_state _).2.1, hk, (Outcome.core_state _).2.1]

/-- An ftp row between two stdout rows changes nothing: both stdout rows load. -/
theorem C2_unrecognized_row_skipped_witness :
    recognized "ftp" = false ∧
    (Log.init ((envOf [] [⟨1, "Core", "info"⟩, ⟨2, "Core", "error"⟩, ⟨3, "Core", "warn"⟩]
        (fun _ _ => true)).withLogs
          ([⟨1, "a", ⟨"stdout", ""⟩, 0, "admin"⟩] ++ ⟨2, "b", ⟨"ftp", "/x"⟩, 0, "admin"⟩ ::
            [⟨3, "c", ⟨"stderr", ""⟩, 0, "admin"⟩])) fresh).state.Outputs
      = (Log.init ((envOf [] [⟨1, "Core", "info"⟩, ⟨2, "Core", "error"⟩, ⟨3, "Core", "warn"⟩]
        (fun _ _ => true)).withLogs
          ([⟨1, "a", ⟨"stdout", ""⟩, 0, "admin"⟩] ++
            [⟨3, "c", ⟨"stderr", ""⟩, 0, "admin"⟩])) fresh).state.Outputs :=
  ⟨by decide, (C2_unrecognized_row_skipped _ _ _ _ (by decide) fresh).2.2.1⟩

/-- C3: when `isInit` is true, in particular in the state a completed `Log::init` returned,
`Log::init` returns at once: `Outputs`, `Categories` (keys and lists) and `isInit` are
unchanged and the only action is the debug message "Log init is called more than once.";
no SQL statement is executed. -/
theorem C3_init_idempotent (env0 env : ConfEnv) (s0 s : LogState)
    (h : s.isInit = true ∨ Log.init env0 s0 = .returned s) :
    Log.init env s
      = .returned { s with trace := s.trace ++ [Event.qDebug ["Log init is called more than once."]] } ∧
    (Log.init env s).state.Outputs = s.Outputs ∧
    (Log.init env s).state.Categories = s.Categories ∧
    (Log.init env s).state.isInit = s.isInit ∧
    (Log.init env s).state.trace
      = s.trace ++ [Event.qDebug ["Log init is called more than once."]] := by
  have hi : s.isInit = true := by
    rcases h with h | h
    · exact h
    · exact init_returned_isInit env0 s0 s h
  have e : Log.init env s
      = .returned { s with trace := s.trace ++ [Event.qDebug ["Log init is called more than once."]] } := by
    simp [Log.init, hi, LogState.emit]
  rw [e]
  exact ⟨rfl, rfl, rfl, rfl, rfl⟩

/-- After the end-to-end configuration is loaded, a second `Log::init` only adds the debug
message. -/
theorem C3_init_idempotent_witness :
    Log.init envMain fresh = .returned (Log.init envMain fresh).state ∧
    (Log.init envMain (Log.init envMain fresh).state).state.Outputs
      = (Log.init envMain fresh).state.Outputs ∧
    (Log.init envMain (Log.init envMain fresh).state).state.Categories
      = (Log.init envMain fresh).state.Categories :=
  ⟨by decide,
   (C3_init_idempotent envMain envMain fresh _ (Or.inr (by decide))).2.1,
   (C3_init_idempotent envMain envMain fresh _ (Or.inr (by decide))).2.2.1⟩

/-- C4: on an initialized registry `Log::error`, `Log::warn` and `Log::info` return after
writing once to every entry of the category's error, warning or info list, in list order,
at the matching severity, with the message "[" + name + "] " + template and the arguments
as given; nothing else is done, and with an empty list the state is unchanged. -/
theorem C4_dispatch_fans_out (env : ConfEnv) (category : CategoryRef) (fmt : String)
    (args : List String) (s : LogState) (h : s.isInit = true) :
    Log.error env category fmt args s
      = .returned { s with trace := s.trace ++ (category s).errorOutputs.map (fun o =>
          Event.write o.logger Level.error ("[" ++ (category s).name ++ "] " ++ fmt) args) } ∧
    Log.warn env category fmt args s
      = .returned { s with trace := s.trace ++ (category s).warningOutputs.map (fun o =>
          Event.write o.logger Level.warn ("[" ++ (category s).name ++ "] " ++ fmt) args) } ∧
    Log.info env category fmt args s
      = .returned { s with trace := s.trace ++ (category s).infoOutputs.map (fun o =>
          Event.write o.logger Level.info ("[" ++ (category s).name ++ "] " ++ fmt) args) } ∧
    ((category s).errorOutputs = [] → Log.error env category fmt args s = .returned s) ∧
    ((category s).warningOutputs = [] → Log.warn env category fmt args s = .returned s) ∧
    ((category s).infoOutputs = [] → Log.info env category fmt args s = .returned s) := by
  have e1 : Log.error env category fmt args s
      = .returned { s with trace := s.trace ++ (category s).errorOutputs.map (fun o =>
          Event.write o.logger Level.error ("[" ++ (category s).name ++ "] " ++ fmt) args) } := by
    simp only [Log.error, initGuard_ready env s h, Log.errorBody, writeAll_eq, buildMsg_eq]
  have e2 : Log.warn env category fmt args s
      = .returned { s with trace := s.trace ++ (category s).warningOutputs.map (fun o =>
          Event.write o.logger Level.warn ("[" ++ (category s).name ++ "] " ++ fmt) args) } := by
    simp only [Log.warn, initGuard_ready env s h, Log.warnBody, writeAll_eq, buildMsg_eq]
  have e3 : Log.info env category fmt args s
      = .returned { s with trace := s.trace ++ (category s).infoOutputs.map (fun o =>
          Event.write o.logger Level.info ("[" ++ (category s).name ++ "] " ++ fmt) args) } := by
    simp only [Log.info, initGuard_ready env s h, Log.infoBody, writeAll_eq, buildMsg_eq]
  refine ⟨e1, e2, e3, ?_, ?_, ?_⟩
  · intro h0; rw [e1, h0]; simp
  · intro h0; rw [e2, h0]; simp
  · intro h0; rw [e3, h0]; simp

/-- In the end-to-end configuration, `error(Core, "disk full")` writes "[Core] disk full"
to the file sink "main" and to nothing else. -/
theorem C4_dispatch_fans_out_witness :
    (Log.init envMain fresh).state.isInit = true ∧
    (Log.error envMain (categoryRef "Core") "disk full" [] (Log.init envMain fresh).state).state.trace
      = (Log.init envMain fresh).state.trace ++
          [Event.write (Logger.basic_logger_mt "main" "/var/log/ssnfs.log") Level.error
            "[Core] disk full" []] := by
  refine ⟨by decide, ?_⟩
  rw [(C4_dispatch_fans_out envMain (categoryRef "Core") "disk full" []
    (Log.init envMain fresh).state (by decide)).1]
  decide

/-- C5: the constructor of `LogOutput` fails with `std::invalid_argument` exactly when the
scheme is none of file, syslog, stdout, stderr; every sink it yields has the kind of its
scheme (file: OutputFile, syslog: OutputSyslog, stdout: OutputStdOut, stderr:
OutputStdErr), it yields one for each of the four schemes whenever the writer opens, and
two sinks built from URIs with the same scheme have the same kind. -/
theorem C5_kind_from_scheme (sp : Spdlog) (made : List Logger) (nme : String) (u : QUrl)
    (t : Nat) (who : String) :
    ((∃ w, LogOutput.new sp made nme u t who = .error (Exn.invalid_argument w)) ↔
      ¬ (u.scheme = "file" ∨ u.scheme = "syslog" ∨ u.scheme = "stdout" ∨ u.scheme = "stderr")) ∧
    (∀ o, LogOutput.new sp made nme u t who = .ok o →
      (u.scheme = "file" → o.type = OutputTypes.OutputFile) ∧
      (u.scheme = "syslog" → o.type = OutputTypes.OutputSyslog) ∧
      (u.scheme = "stdout" → o.type = OutputTypes.OutputStdOut) ∧
      (u.scheme = "stderr" → o.type = OutputTypes.OutputStdErr)) ∧
    ((∀ l, sp made l = true) →
      (u.scheme = "file" ∨ u.scheme = "syslog" ∨ u.scheme = "stdout" ∨ u.scheme = "stderr") →
      ∃ o, LogOutput.new sp made nme u t who = .ok o ∧ o.type = specType u.scheme) ∧
    (∀ (sp2 : Spdlog) (made2 : List Logger) (nme2 : String) (u2 : QUrl) (t2 : Nat)
      (who2 : String) (o o2 : LogOutput), u2.scheme = u.scheme →
      LogOutput.new sp made nme u t who = .ok o →
      LogOutput.new sp2 made2 nme2 u2 t2 who2 = .ok o2 → o.type = o2.type) := by
  have key : ∀ (sp : Spdlog) (made : List Logger) (nme : String) (u : QUrl) (t : Nat)
      (who : String) (o : LogOutput), LogOutput.new sp made nme u t who = .ok o →
      recognized u.scheme = true ∧ o.type = specType u.scheme := by
    intro sp made nme u t who o ho
    by_cases hr : recognized u.scheme = true
    · refine ⟨hr, ?_⟩
      have := new_recognized sp made ⟨0, nme, u, t, who⟩ hr
      simp only at this
      rw [this] at ho
      split_ifs at ho
      · simp only [Except.ok.injEq] at ho
        rw [← ho]; rfl
    · have hr2 : recognized u.scheme = false := by simpa using hr
      rw [new_unrecognized sp made nme u t who hr2] at ho
      simp at ho
  refine ⟨?_, ?_, ?_, ?_⟩
  · rw [← recognized_iff]
    constructor
    · rintro ⟨w, hw⟩ hr
      have := new_recognized sp made ⟨0, nme, u, t, who⟩ hr
      simp only at this
      rw [this] at hw
      split_ifs at hw
      simp at hw
    · intro hr
      have hr2 : recognized u.scheme = false := by simpa using hr
      exact ⟨"output", new_unrecognized sp made nme u t who hr2⟩
  · intro o ho
    obtain ⟨-, ht⟩ := key sp made nme u t who o ho
    rw [ht]
    refine ⟨?_, ?_, ?_, ?_⟩ <;> intro hs <;> simp [specType, hs]
  · intro hall hr
    have hr1 : recognized u.scheme = true := (recognized_iff _).mpr hr
    have := new_recognized sp made ⟨0, nme, u, t, who⟩ hr1
    simp only [hall, if_true] at this
    exact ⟨_, this, rfl⟩
  · intro sp2 made2 nme2 u2 t2 who2 o o2 hsch ho ho2
    rw [(key sp made nme u t who o ho).2, (key sp2 made2 nme2 u2 t2 who2 o2 ho2).2, hsch]

/-- C6 fails in the code: a binding that names the undeclared category "Bogus" with level
text "error" makes `Log::init` insert a seventh category under that key, through the
non-const `operator[]` of log.h 150. -/
theorem C6_undeclared_category_is_created :
    QHash.keys fresh.Categories = predeclared ∧
    (∃ s1, Log.init envBogus fresh = .returned s1 ∧
      QHash.keys s1.Categories = predeclared ++ ["Bogus"] ∧
      (QHash.value s1.Categories "Bogus").errorOutputs.map (fun o => o.name) = ["console"]) ∧
    "Bogus" ∉ predeclared := by
  refine ⟨by decide, ⟨(Log.init envBogus fresh).state, by decide, by decide, by decide⟩,
    by decide⟩

/-- C7 as stated fails: when the file of the first row cannot be opened, `Log::init` does
not return, `isInit` stays false, and the stdout row after it is never loaded or bound. -/
theorem C7_writer_failure_not_recovered :
    Log.init envUnwritable fresh
      = .threw Exn.spdlog_ex (Log.init envUnwritable fresh).state ∧
    (Log.init envUnwritable fresh).state.isInit = false ∧
    (Log.init envUnwritable fresh).state.Outputs = [] ∧
    (QHash.value (Log.init envUnwritable fresh).state.Categories "Core").errorOutputs = [] ∧
    ¬ ∃ s1, Log.init envUnwritable fresh = .returned s1 ∧ s1.isInit = true := by
  refine ⟨by decide, by decide, by decide, by decide, ?_⟩
  rintro ⟨s1, h1, -⟩
  have h2 : Log.init envUnwritable fresh
      = .threw Exn.spdlog_ex (Log.init envUnwritable fresh).state := by decide
  rw [h2] at h1
  simp at h1

/-- C7 amended: when the writer of a row with a recognized scheme fails to open, the
exception of spdlog leaves `Log::init`: the rows before that row stay loaded as the loop left
them, that row and the rows after it add nothing, and `isInit` is still false. -/
theorem C7_writer_failure_propagates (env : ConfEnv) (s s1 : LogState)
    (pre post : List LogsRow) (r : LogsRow)
    (hi : s.isInit = false) (hread : env.readable) (hl : env.Logs = pre ++ r :: post)
    (hpre : processRows env (rowsStart env s) pre = .returned s1)
    (hr : recognized r.Log_Path.scheme = true)
    (hw : env.spdlog s1.loggers (specLogger r) = false) :
    Log.init env s = .threw Exn.spdlog_ex s1 ∧ s1.isInit = false := by
  constructor
  · rw [init_readable env hread s hi, hl, processRows_append env pre (r :: post) _ s1 hpre]
    simp only [processRows, processRow_fail env s1 r hr hw]
  · rw [processRows_isInit env pre _ s1 hpre, (rowsStart_readable env hread s).2.2, hi]

/-- With the unwritable file in the second row, the first row stays loaded and bound and
the exception leaves `Log::init`. -/
theorem C7_writer_failure_propagates_witness :
    envLockedSecond.readable ∧
    (Log.init envLockedSecond fresh
      = .threw Exn.spdlog_ex
          (processRows envLockedSecond (rowsStart envLockedSecond fresh) [rowConsole]).state ∧
     (processRows envLockedSecond (rowsStart envLockedSecond fresh) [rowConsole]).state.isInit
      = false) ∧
    (Log.init envLockedSecond fresh).state.Outputs.map (fun o => o.name) = ["console"] :=
  ⟨by simp [ConfEnv.readable, envLockedSecond, envOf],
   C7_writer_failure_propagates envLockedSecond fresh
      (processRows envLockedSecond (rowsStart envLockedSecond fresh) [rowConsole]).state
      [rowConsole] [] rowLocked rfl (by simp [ConfEnv.readable, envLockedSecond, envOf]) rfl
      (by decide) (by decide) (by decide),
   by decide⟩

/-- C8: from a state with `isInit` false in which the initialization entered through the
guard completes, the first dispatcher call runs `Log::init` (after the warning) and leaves
`isInit` true; whatever calls follow, the run ends with the `Outputs` and `Categories` that
this one initialization left, and everything recorded after it is a write to a sink. A call
made when `isInit` is true returns with `Outputs`, `Categories` and `isInit` unchanged and
records only writes to sinks. -/
theorem C8_lazy_init_once (env : ConfEnv) (s0 s1 : LogState) (c : LogCall)
    (cs : List LogCall) (h0 : s0.isInit = false) (hload : initGuard env s0 = .returned s1) :
    initGuard env s0
      = Log.init env (s0.emit (Event.qWarning
          ["Warning: Log called before init. Running init now."])) ∧
    s1.isInit = true ∧
    (∃ s2 ws, runCalls env (c :: cs) s0 = .returned s2 ∧ s2.isInit = true ∧
      s2.Outputs = s1.Outputs ∧ s2.Categories = s1.Categories ∧
      s2.trace = s1.trace ++ ws ∧ ∀ e ∈ ws, e.isWrite = true) ∧
    (∀ (call : LogCall) (s : LogState), s.isInit = true →
      ∃ s3 ws, call.run env s = .returned s3 ∧ s3.isInit = true ∧
        s3.Outputs = s.Outputs ∧ s3.Categories = s.Categories ∧
        s3.trace = s.trace ++ ws ∧ ∀ e ∈ ws, e.isWrite = true) := by
  have hg : initGuard env s0
      = Log.init env (s0.emit (Event.qWarning
          ["Warning: Log called before init. Running init now."])) := by
    simp [initGuard, h0]
  have h1 : s1.isInit = true := by
    rw [hg] at hload
    exact init_returned_isInit env _ s1 hload
  have hrun : ∀ (call : LogCall) (s : LogState), s.isInit = true →
      ∃ s3 ws, call.run env s = .returned s3 ∧ s3.isInit = true ∧
        s3.Outputs = s.Outputs ∧ s3.Categories = s.Categories ∧
        s3.trace = s.trace ++ ws ∧ ∀ e ∈ ws, e.isWrite = true := by
    intro call s hs
    obtain ⟨ws, e, w⟩ := run_ready env call s hs
    exact ⟨_, ws, e, hs, rfl, rfl, rfl, w⟩
  refine ⟨hg, h1, ?_, hrun⟩
  have hfirst : ∃ ws, c.run env s0 = .returned { s1 with trace := s1.trace ++ ws } ∧
      ∀ e ∈ ws, e.isWrite = true := by
    cases c with
    | error cat f a =>
        refine ⟨(cat s1).errorOutputs.map
          (fun o => Event.write o.logger Level.error (ToChr (buildMsg (cat s1) f)) a), ?_, ?_⟩
        · simp only [LogCall.run, Log.error, hload, Log.errorBody, writeAll_eq]
        · intro e he
          simp only [List.mem_map] at he
          obtain ⟨o, -, rfl⟩ := he
          rfl
    | warn cat f a =>
        refine ⟨(cat s1).warningOutputs.map
          (fun o => Event.write o.logger Level.warn (ToChr (buildMsg (cat s1) f)) a), ?_, ?_⟩
        · simp only [LogCall.run, Log.warn, hload, Log.warnBody, writeAll_eq]
        · intro e he
          simp only [List.mem_map] at he
          obtain ⟨o, -, rfl⟩ := he
          rfl
    | info cat f a =>
        refine ⟨(cat s1).infoOutputs.map
          (fun o => Event.write o.logger Level.info (ToChr (buildMsg (cat s1) f)) a), ?_, ?_⟩
        · simp only [LogCall.run, Log.info, hload, Log.infoBody, writeAll_eq]
        · intro e he
          simp only [List.mem_map] at he
          obtain ⟨o, -, rfl⟩ := he
          rfl
  obtain ⟨ws, e1, w1⟩ := hfirst
  obtain ⟨ws2, e2, w2⟩ := runCalls_ready env cs { s1 with trace := s1.trace ++ ws } h1
  refine ⟨{ s1 with trace := s1.trace ++ (ws ++ ws2) }, ws ++ ws2, ?_, h1, rfl, rfl, rfl, ?_⟩
  · simp only [runCalls, e1, e2, List.append_assoc]
  · intro e he
    rcases List.mem_append.mp he with he | he
    · exact w1 e he
    · exact w2 e he

/-- Two calls on the fresh end-to-end configuration: the first initializes, and the
registry after both calls is the one the initialization left. -/
theorem C8_lazy_init_once_witness :
    fresh.isInit = false ∧
    initGuard envMain fresh = .returned (initGuard envMain fresh).state ∧
    ∃ s2 ws, runCalls envMain
        (LogCall.error (categoryRef "Core") "disk full" [] ::
          [LogCall.info (categoryRef "Core") "started" []]) fresh = .returned s2 ∧
      s2.isInit = true ∧ s2.Outputs = (initGuard envMain fresh).state.Outputs ∧
      s2.Categories = (initGuard envMain fresh).state.Categories ∧
      s2.trace = (initGuard envMain fresh).state.trace ++ ws ∧ ∀ e ∈ ws, e.isWrite = true :=
  ⟨rfl, by decide,
   (C8_lazy_init_once envMain fresh (initGuard envMain fresh).state
      (LogCall.error (categoryRef "Core") "disk full" [])
      [LogCall.info (categoryRef "Core") "started" []] rfl (by decide)).2.2.1⟩

/-- C9: when there is no valid connection and the database file is missing, `getConfDB`
returns an invalid handle and `Log::init`, entered with `isInit` false, exits with status 1:
`Outputs`, `Categories` and `isInit` are as before, and the only action is the critical
message (no SQL statement, so no row was read); from the fresh state `Outputs` and every
sink list are empty. -/
theorem C9_missing_database_exits (env : ConfEnv) (s : LogState) (hi : s.isInit = false)
    (hv : s.dbValid = false) (hf : env.fileExists = false) :
    (getConfDB env s).2 = false ∧
    (∃ s1, Log.init env s = .exited 1 s1 ∧ s1.Outputs = s.Outputs ∧
      s1.Categories = s.Categories ∧ s1.isInit = false ∧
      s1.trace = s.trace ++ [Event.qCritical
        ["The database could not be found at " ++ env.configDir ++ "/config.db."]]) ∧
    (∃ f1, Log.init env fresh = .exited 1 f1 ∧ f1.Outputs = [] ∧ f1.isInit = false ∧
      ∀ c, (QHash.value f1.Categories c).errorOutputs = [] ∧
           (QHash.value f1.Categories c).warningOutputs = [] ∧
           (QHash.value f1.Categories c).infoOutputs = []) := by
  have hg : ∀ t : LogState, t.isInit = false → t.dbValid = false →
      getConfDB env t = ({ t with dbValid := true, trace := t.trace ++ [Event.qCritical
        ["The database could not be found at " ++ env.configDir ++ "/config.db."]] },
        false) := by
    intro t h1 h2
    simp [getConfDB, reportConfDB, LogState.emit, h1, h2, hf]
  have hinit : ∀ t : LogState, t.isInit = false → t.dbValid = false →
      Log.init env t = .exited 1 { t with dbValid := true, trace := t.trace ++
        [Event.qCritical
          ["The database could not be found at " ++ env.configDir ++ "/config.db."]] } := by
    intro t h1 h2
    simp [Log.init, h1, hg t h1 h2]
  refine ⟨by rw [hg s hi hv], ⟨_, hinit s hi hv, rfl, rfl, hi, rfl⟩,
    ⟨_, hinit fresh rfl rfl, rfl, rfl, fun c => Categories0_value c⟩⟩

/-- Without the database file the end-to-end configuration exits with status 1 and binds
nothing. -/
theorem C9_missing_database_exits_witness :
    envNoFile.fileExists = false ∧ (getConfDB envNoFile fresh).2 = false ∧
    ∃ s1, Log.init envNoFile fresh = .exited 1 s1 ∧ s1.Outputs = fresh.Outputs ∧
      s1.Categories = fresh.Categories ∧ s1.isInit = false ∧
      s1.trace = fresh.trace ++ [Event.qCritical
        ["The database could not be found at " ++ envNoFile.configDir ++ "/config.db."]] :=
  ⟨rfl, (C9_missing_database_exits envNoFile fresh rfl rfl rfl).1,
   (C9_missing_database_exits envNoFile fresh rfl rfl rfl).2.1⟩

/-- C10 fails in the code: with the listen port text "abc" (no integer: the conversion
yields 0 and reports failure) and with "70000" and "0" (integers outside 1..65535), lines
145-152 of `main` log nothing, do not exit, and call `server.listen` with 0, 70000 and 0. -/
theorem C10_invalid_port_still_listens :
    QString.toInt "abc" = (0, false) ∧
    main_listen envMain "abc" (Log.init envMain fresh).state
      = .returned ((Log.init envMain fresh).state.emit (Event.listen 0)) ∧
    main_listen envMain "70000" (Log.init envMain fresh).state
      = .returned ((Log.init envMain fresh).state.emit (Event.listen 70000)) ∧
    main_listen envMain "0" (Log.init envMain fresh).state
      = .returned ((Log.init envMain fresh).state.emit (Event.listen 0)) := by
  refine ⟨by decide, ?_, ?_, ?_⟩
  · rw [main_listen_always_listens]
    have : QString.toInt "abc" = (0, false) := by decide
    rw [this]
  · rw [main_listen_always_listens]
    have : QString.toInt "70000" = (70000, true) := by decide
    rw [this]
  · rw [main_listen_always_listens]
    have : QString.toInt "0" = (0, true) := by decide
    rw [this]

end SSNFS
